import Mathlib

/-!
Verification of the homophone resolution engine of the audioDetection
repository.  The definitions below are a shallow embedding of the
JavaScript source files `api/transcribe.js`, `api/num-normalize.js` and
`public/js/pinyin-loader.js`: strings are Lean `String`s (lists of
characters), JavaScript regular-expression operations are spelled out as
list transformations, `NaN` / `null` returns become `Option`, a rejected
`fetch` promise becomes `Except.error`, and the module-level shard cache
becomes explicit state passing.  External collaborators (the ASR
backends, the Datamuse homophone service, the static JSON documents) are
parameters of the functions that consume them, exactly at the interface
boundary the code reads them.
-/

/-! ## Character classes (embedding the source's regular-expression classes) -/

/-- Embeds the JavaScript `\s` character class (`trim()`, `/\s+/`, `/\s/`):
whitespace and line terminators. -/
def jsIsSpace (c : Char) : Bool :=
  decide (c.toNat = 0x20 ∨ (0x9 ≤ c.toNat ∧ c.toNat ≤ 0xD) ∨ c.toNat = 0xA0 ∨
    c.toNat = 0x1680 ∨ (0x2000 ≤ c.toNat ∧ c.toNat ≤ 0x200A) ∨ c.toNat = 0x2028 ∨
    c.toNat = 0x2029 ∨ c.toNat = 0x202F ∨ c.toNat = 0x205F ∨ c.toNat = 0x3000 ∨
    c.toNat = 0xFEFF)

/-- Embeds `/\p{Script=Han}/u` restricted to the CJK unified-ideograph blocks
(base block, extension A, compatibility ideographs, extension B). -/
def isHan (c : Char) : Bool :=
  decide ((0x4E00 ≤ c.toNat ∧ c.toNat ≤ 0x9FFF) ∨ (0x3400 ≤ c.toNat ∧ c.toNat ≤ 0x4DBF) ∨
    (0xF900 ≤ c.toNat ∧ c.toNat ≤ 0xFAD9) ∨ (0x20000 ≤ c.toNat ∧ c.toNat ≤ 0x2A6DF))

/-- Embeds `[A-Za-z]`. -/
def isLatinLetter (c : Char) : Bool :=
  decide ((65 ≤ c.toNat ∧ c.toNat ≤ 90) ∨ (97 ≤ c.toNat ∧ c.toNat ≤ 122))

/-- Embeds `/[\p{Script=Han}\p{Script=Hiragana}\p{Script=Katakana}\p{Script=Hangul}]/u`
restricted to the main blocks of those scripts. -/
def isCJKScript (c : Char) : Bool :=
  isHan c || decide ((0x3040 ≤ c.toNat ∧ c.toNat ≤ 0x309F) ∨
    (0x30A0 ≤ c.toNat ∧ c.toNat ≤ 0x30FF) ∨ (0x1100 ≤ c.toNat ∧ c.toNat ≤ 0x11FF) ∨
    (0x3130 ≤ c.toNat ∧ c.toNat ≤ 0x318F) ∨ (0xAC00 ≤ c.toNat ∧ c.toNat ≤ 0xD7AF))

/-- Embeds `\d` (`[0-9]`). -/
def isDigitChar (c : Char) : Bool := decide (48 ≤ c.toNat ∧ c.toNat ≤ 57)

/-- Embeds `[a-z]`. -/
def isLowerAZ (c : Char) : Bool := decide (97 ≤ c.toNat ∧ c.toNat ≤ 122)

/-- Embeds `[1-5]` (pinyin tone digits). -/
def isToneDigit (c : Char) : Bool := decide (49 ≤ c.toNat ∧ c.toNat ≤ 53)

/-- Embeds the quote class of `stripEnds` in `api/num-normalize.js`:
double quote, single quote and backquote. -/
def isQuoteChar (c : Char) : Bool :=
  decide (c.toNat = 34 ∨ c.toNat = 39 ∨ c.toNat = 96)

/-- Embeds the trailing-punctuation class of `stripTrailingPunctIfSingle`
in `api/transcribe.js`: `[\.。！？!?，,、；;：:…]`. -/
def isPunctTrail (c : Char) : Bool :=
  decide (c ∈ ['.', '。', '！', '？', '!', '?', '，', ',', '、', '；', ';', '：', ':', '…'])

/-- Embeds the trailing-punctuation class of `stripEnds` in
`api/num-normalize.js`: `[\.。！？!?…，,；;：:]` (same set without `、`). -/
def isPunctEnd (c : Char) : Bool :=
  decide (c ∈ ['.', '。', '！', '？', '!', '?', '…', '，', ',', '；', ';', '：', ':'])

/-! ## Generic string helpers (embedding `trim`, `split`, `toLowerCase`, JS `Set`) -/

/-- Drops a trailing run of characters satisfying `p`
(the `/[...]+$/` replace idiom of the source). -/
def dropTrailingWhile (p : Char → Bool) (cs : List Char) : List Char :=
  (cs.reverse.dropWhile p).reverse

/-- Embeds `String.prototype.trim`. -/
def jsTrim (cs : List Char) : List Char :=
  dropTrailingWhile jsIsSpace (cs.dropWhile jsIsSpace)

/-- `trim` on `String`. -/
def jsTrimStr (s : String) : String := String.mk (jsTrim s.data)

/-- Embeds `toLowerCase` on the ASCII range (the source only lowercases
Latin letters and BCP-47 tags). -/
def jsToLower (c : Char) : Char :=
  if 65 ≤ c.toNat ∧ c.toNat ≤ 90 then Char.ofNat (c.toNat + 32) else c

/-- `toLowerCase` on `String`. -/
def jsToLowerStr (s : String) : String := String.mk (s.data.map jsToLower)

/-- Embeds `String.prototype.split` with a one-character separator
(`split(' ')`, `split('-')`): `""` splits to `[""]`, like in JavaScript. -/
def splitOnChar (sep : Char) : List Char → List (List Char)
  | [] => [[]]
  | c :: cs =>
    if c = sep then [] :: splitOnChar sep cs
    else
      match splitOnChar sep cs with
      | w :: ws => (c :: w) :: ws
      | [] => [[c]]

/-- String-level split on one character. -/
def splitStr (sep : Char) (s : String) : List String :=
  (splitOnChar sep s.data).map String.mk

/-- Embeds `Set.prototype.add` on an insertion-ordered duplicate-free list:
adding an element already present leaves the set unchanged. -/
def setAdd {α : Type} [DecidableEq α] (l : List α) (x : α) : List α :=
  if x ∈ l then l else l ++ [x]

/-- Embeds `[...new Set(xs)]`: insertion-ordered deduplication. -/
def jsSetFrom {α : Type} [DecidableEq α] (xs : List α) : List α :=
  xs.foldl setAdd []

/-- Embeds `(bcp47 || '').split('-')[0].toLowerCase()`. -/
def primarySubtag (s : String) : String :=
  jsToLowerStr (String.mk ((splitOnChar '-' s.data).headD []))

/-! ## English number-word codec (`api/transcribe.js`, lines 298-372) -/

/-- Embeds the `SMALLS` table: ones and teens, 0-19. -/
def SMALLS (s : String) : Option Nat :=
  match s with
  | "zero" => some 0 | "one" => some 1 | "two" => some 2 | "three" => some 3
  | "four" => some 4 | "five" => some 5 | "six" => some 6 | "seven" => some 7
  | "eight" => some 8 | "nine" => some 9 | "ten" => some 10 | "eleven" => some 11
  | "twelve" => some 12 | "thirteen" => some 13 | "fourteen" => some 14
  | "fifteen" => some 15 | "sixteen" => some 16 | "seventeen" => some 17
  | "eighteen" => some 18 | "nineteen" => some 19
  | _ => none

/-- Embeds the `TENS` table: 20, 30, ..., 90. -/
def TENS (s : String) : Option Nat :=
  match s with
  | "twenty" => some 20 | "thirty" => some 30 | "forty" => some 40 | "fifty" => some 50
  | "sixty" => some 60 | "seventy" => some 70 | "eighty" => some 80 | "ninety" => some 90
  | _ => none

/-- Embeds `Object.keys(SMALLS).find(k => SMALLS[k] === n)` for `n < 20`
(the reverse lookup always succeeds in range; out of range the JS `find`
yields `undefined`, modelled as `""` which no caller reaches). -/
def smallWord (n : Nat) : String :=
  match n with
  | 0 => "zero" | 1 => "one" | 2 => "two" | 3 => "three" | 4 => "four"
  | 5 => "five" | 6 => "six" | 7 => "seven" | 8 => "eight" | 9 => "nine"
  | 10 => "ten" | 11 => "eleven" | 12 => "twelve" | 13 => "thirteen"
  | 14 => "fourteen" | 15 => "fifteen" | 16 => "sixteen" | 17 => "seventeen"
  | 18 => "eighteen" | 19 => "nineteen"
  | _ => ""

/-- Embeds `Object.keys(TENS).find(k => TENS[k] === t)` for `t ∈ {20,...,90}`. -/
def tensWord (n : Nat) : String :=
  match n with
  | 20 => "twenty" | 30 => "thirty" | 40 => "forty" | 50 => "fifty"
  | 60 => "sixty" | 70 => "seventy" | 80 => "eighty" | 90 => "ninety"
  | _ => ""

/-- Collapses whitespace runs to single spaces, embedding
`.replace(/\s+/g, ' ')`. -/
def collapseSpaces : List Char → List Char
  | [] => []
  | [c] => [if jsIsSpace c then ' ' else c]
  | c1 :: c2 :: cs =>
    if jsIsSpace c1 ∧ jsIsSpace c2 then collapseSpaces (c2 :: cs)
    else (if jsIsSpace c1 then ' ' else c1) :: collapseSpaces (c2 :: cs)

/-- Embeds `.replace(/\s*-\s*/g, '-')` on input whose whitespace runs have
already been collapsed to single spaces (the source applies this replace
right after `.replace(/\s+/g, ' ')`, so runs of length over one cannot occur). -/
def tightenHyphens : List Char → List Char
  | [] => []
  | ' ' :: '-' :: ' ' :: cs => '-' :: tightenHyphens cs
  | ' ' :: '-' :: cs => '-' :: tightenHyphens cs
  | '-' :: ' ' :: cs => '-' :: tightenHyphens cs
  | '-' :: cs => '-' :: tightenHyphens cs
  | c :: cs => c :: tightenHyphens cs

/-- Embeds `normalizeNumberWord` (`api/transcribe.js`, lines 299-303):
trim, lowercase, collapse whitespace, tighten hyphens. -/
def normalizeNumberWord (s : String) : String :=
  String.mk (tightenHyphens (collapseSpaces ((jsTrim s.data).map jsToLower)))

/-- Embeds the hyphenated-pair shortcut of `englishWordToInt`
(lines 319-322): `const [t, u] = s.split('-'); if (TENS[t] && SMALLS[u] !==
undefined) return TENS[t] + SMALLS[u]` (all `TENS` values are nonzero, so the
truthiness test is presence). -/
def hyphenPair (t : String) : Option Nat :=
  match splitStr '-' t with
  | a :: b :: _ =>
    match TENS a, SMALLS b with
    | some tv, some uv => some (tv + uv)
    | _, _ => none
  | _ => none

/-- Embeds the token loop of `englishWordToInt` (lines 326-346): the final
`total + current` is produced at the end of the list. -/
def wordLoop : List String → Nat → Nat → Option Nat
  | [], total, current => some (total + current)
  | p :: ps, total, current =>
    match SMALLS p with
    | some v => wordLoop ps total (current + v)
    | none =>
      match TENS p with
      | some v => wordLoop ps total (current + v)
      | none =>
        if p = "hundred" then
          if current = 0 then none else wordLoop ps total (current * 100)
        else if p = "thousand" then
          if current = 0 then none else wordLoop ps (total + current * 1000) 0
        else if p = "and" then wordLoop ps total current
        else none

/-- Embeds the final range check (lines 346-349): `NaN` above 9999
(`total < 0` and non-integer totals cannot arise over `Nat`). -/
def rangedTotal : Option Nat → Option Nat
  | none => none
  | some total => if 9999 < total then none else some total

/-- Embeds `englishWordToInt` (`api/transcribe.js`, lines 314-350).
`none` models `NaN`. -/
def englishWordToInt (s : String) : Option Nat :=
  if s = "" then none
  else
    let t := normalizeNumberWord s
    match (if t.data.contains '-' then hyphenPair t else none) with
    | some v => some v
    | none => rangedTotal (wordLoop (splitStr ' ' t) 0 0)

/-- Embeds the body of `intToEnglishWord` (lines 352-372); the fuel argument
makes the bounded recursion (depth at most 3 for inputs up to 9999)
structural, so the definition evaluates in the kernel. -/
def intToEnglishWordAux : Nat → Nat → Option String
  | 0, _ => none
  | f + 1, n =>
    if 9999 < n then none
    else if n < 20 then some (smallWord n)
    else if n < 100 then
      let t := n / 10 * 10
      let u := n % 10
      some (if u ≠ 0 then tensWord t ++ "-" ++ smallWord u else tensWord t)
    else if n < 1000 then
      let h := n / 100
      let r := n % 100
      some (if r ≠ 0 then
        smallWord h ++ " hundred " ++ (intToEnglishWordAux f r).getD ""
      else smallWord h ++ " hundred")
    else
      let th := n / 1000
      let r := n % 1000
      some (if r ≠ 0 then
        smallWord th ++ " thousand " ++ (intToEnglishWordAux f r).getD ""
      else smallWord th ++ " thousand")

/-- Embeds `intToEnglishWord` (`api/transcribe.js`, lines 352-372); `none`
models the `null` returned out of range (`n < 0` cannot arise over `Nat`). -/
def intToEnglishWord (n : Nat) : Option String := intToEnglishWordAux 4 n

example : intToEnglishWord 0 = some "zero" := by decide
example : intToEnglishWord 25 = some "twenty-five" := by decide
example : intToEnglishWord 203 = some "two hundred three" := by decide
example : intToEnglishWord 2304 = some "two thousand three hundred four" := by decide
example : englishWordToInt "twenty-five" = some 25 := by decide
example : englishWordToInt "two hundred three" = some 203 := by decide

/-! ## Pinyin key codec (`api/transcribe.js`, lines 374-390) -/

/-- Embeds the `toneMap`-based replace of `detectSinglePinyin`: each tonal
diacritic vowel maps to its ASCII vowel plus tone digit (bare `ü` to `v`);
every other character is left unchanged. -/
def pinyinToneFold (c : Char) : List Char :=
  match c with
  | 'ā' => ['a', '1'] | 'á' => ['a', '2'] | 'ǎ' => ['a', '3'] | 'à' => ['a', '4']
  | 'ē' => ['e', '1'] | 'é' => ['e', '2'] | 'ě' => ['e', '3'] | 'è' => ['e', '4']
  | 'ī' => ['i', '1'] | 'í' => ['i', '2'] | 'ǐ' => ['i', '3'] | 'ì' => ['i', '4']
  | 'ō' => ['o', '1'] | 'ó' => ['o', '2'] | 'ǒ' => ['o', '3'] | 'ò' => ['o', '4']
  | 'ū' => ['u', '1'] | 'ú' => ['u', '2'] | 'ǔ' => ['u', '3'] | 'ù' => ['u', '4']
  | 'ǖ' => ['v', '1'] | 'ǘ' => ['v', '2'] | 'ǚ' => ['v', '3'] | 'ǜ' => ['v', '4']
  | 'ü' => ['v']
  | _ => [c]

/-- Embeds the test `/^[a-z]+[1-5]?$/`: one or more lowercase letters
followed by an optional single tone digit. -/
def pinyinShape (cs : List Char) : Bool :=
  let rest := cs.dropWhile isLowerAZ
  decide (cs.takeWhile isLowerAZ ≠ []) &&
    (match rest with
     | [] => true
     | [d] => isToneDigit d
     | _ => false)

/-- Embeds `detectSinglePinyin` (`api/transcribe.js`, lines 375-390):
trim and lowercase, reject empties and tokens with an internal space,
fold diacritics, require the pinyin shape and length at most 6. -/
def detectSinglePinyin (s : String) : Option String :=
  let t0 := (jsTrim s.data).map jsToLower
  if t0 = [] ∨ t0.contains ' ' then none
  else
    let t := t0.flatMap pinyinToneFold
    if pinyinShape t then
      if 6 < t.length then none else some (String.mk t)
    else none

/-- Embeds `key.replace(/[1-5]$/, '')`: strip one trailing tone digit. -/
def stripToneDigit (s : String) : String :=
  match s.data.getLast? with
  | some d => if isToneDigit d then String.mk s.data.dropLast else s
  | none => s

example : detectSinglePinyin "hao3" = some "hao3" := by decide
example : detectSinglePinyin "hao" = some "hao" := by decide
example : detectSinglePinyin "ni hao" = none := by decide
example : stripToneDigit "hao3" = "hao" := by decide

/-! ## Shard cache (`api/transcribe.js`, lines 194-215) -/

/-- A syllable shard: the parsed JSON object mapping syllable keys (bare or
tone-qualified) to member logograms, as an insertion-ordered association list. -/
abbrev Shard := List (String × List String)

/-- JS object indexing `shard[key]` on a shard. -/
def shardLookup (sh : Shard) (k : String) : Option (List String) := sh.lookup k

/-- The module-scope `SHARD_CACHE` map, as explicit state. -/
abbrev ShardCache := List (String × Shard)

/-- Outcome of the `fetch` of a shard document: an ok response carrying the
parsed shard, a non-ok response (`r.ok` false, e.g. 404), or a transport
error on which the `fetch` promise rejects (a thrown exception). -/
inductive FetchOutcome where
  | ok (shard : Shard)
  | notOk
  | netError
deriving DecidableEq

/-- Result of one `loadPinyinShard` call: the shard it returns, the cache
state after the call, and how many network fetches it performed. -/
structure LoadResult where
  shard : Shard
  cache : ShardCache
  fetches : Nat
deriving DecidableEq

/-- Embeds `loadPinyinShard` (`api/transcribe.js`, lines 208-215).  The
network is abstracted as the `FetchOutcome` the fetch would produce.  On a
cache hit the fetch is not consulted; on a non-ok response the parsed body is
the empty object `{}`, which is stored and returned; a transport error makes
`await fetch(url)` throw, modelled as `Except.error` propagating out. -/
def loadPinyinShard (cache : ShardCache) (base : String) (f : FetchOutcome) :
    Except Unit LoadResult :=
  match cache.lookup base with
  | some sh => .ok ⟨sh, cache, 0⟩
  | none =>
    match f with
    | .ok sh => .ok ⟨sh, (base, sh) :: cache, 1⟩
    | .notOk => .ok ⟨[], (base, ([] : Shard)) :: cache, 1⟩
    | .netError => .error ()

/-! ## Homophone resolver, Chinese paths (`api/transcribe.js`, lines 138-206) -/

/-- One pronunciation record of the logogram reading table
(`hanzi_to_pinyin.json`): `{sound, tone, pretty}`.  Tones are 1-5; the
source's `filter(Boolean)` drops a zero/absent tone, modelled as `tone = 0`. -/
structure Reading where
  sound : String
  tone : Nat
  pretty : String
deriving DecidableEq

/-- Result record of `buildZhHomophones`. -/
structure ZhAugment where
  mode : String
  input : String
  bases : List String
  homophones : List String
  toneLabel : Option String
deriving DecidableEq

/-- Embeds the `singleChar` branch of `buildZhHomophones` (lines 153-172):
distinct lowercased bases, distinct truthy tones, and the union (via a JS
`Set`) of each base shard's bare-base entry.  `hm` is the loaded logogram
reading table (`HANZI_MAP[ch] || []`); `shardOf b` is the shard object
`loadPinyinShard` returns for base `b`. -/
def zhSingleCharResult (hm : Char → List Reading) (shardOf : String → Shard)
    (ch : Char) : ZhAugment :=
  let readings := hm ch
  let bases := jsSetFrom ((readings.map fun r => jsToLowerStr r.sound).filter fun s => s ≠ "")
  let tones := jsSetFrom ((readings.map Reading.tone).filter fun t => t ≠ 0)
  { mode := "singleChar"
    input := String.mk [ch]
    bases := bases
    homophones := bases.foldl (fun acc b => ((shardLookup (shardOf b) b).getD []).foldl setAdd acc) []
    toneLabel := if tones = [] then none
                 else some (String.intercalate "/" (tones.map Nat.repr)) }

/-- Embeds the `singlePinyin` branch of `buildZhHomophones` (lines 174-186):
the homophone list always comes from the bare base key's entry of the shard
(`shard[baseKey] || []`); the tone label is the trailing digit of the
normalized key, if any. -/
def zhSinglePinyinResult (shardOf : String → Shard) (top key : String) : ZhAugment :=
  let baseKey := stripToneDigit key
  { mode := "singlePinyin"
    input := top
    bases := [baseKey]
    homophones := (shardLookup (shardOf baseKey) baseKey).getD []
    toneLabel :=
      match key.data.getLast? with
      | some d => if isToneDigit d then some (String.mk [d]) else none
      | none => none }

/-- Embeds `buildZhHomophones` (`api/transcribe.js`, lines 138-192).  The two
cache-backed collaborators are abstracted as the loaded reading table `hm` and
the per-base shard map `shardOf` (their load/fetch behavior is modelled by
`loadPinyinShard` above); with them in hand the body is pure, and the
surrounding `try`/`catch` (which turns a thrown fetch error into `null`)
has nothing left to catch. -/
def buildZhHomophones (hm : Char → List Reading) (shardOf : String → Shard)
    (candidates : List String) (bcp47 : String) : Option ZhAugment :=
  if primarySubtag bcp47 ≠ "zh" then none
  else
    let top0 := jsTrimStr (candidates.headD "")
    if top0 = "" then none
    else
      let hanOnly := String.mk (top0.data.filter isHan)
      let top := if hanOnly ≠ "" then hanOnly else top0
      if (top.data.filter isHan).length = 1 then
        match top.data.find? isHan with
        | some ch => some (zhSingleCharResult hm shardOf ch)
        | none => none
      else
        match detectSinglePinyin top with
        | some key => some (zhSinglePinyinResult shardOf top key)
        | none => none

/-- Embeds the lookup of `loadHanziForPinyin` (`public/js/pinyin-loader.js`,
lines 15-25): client-side shard access, `shard[key] || shard[base] || []`
(an empty array entry is truthy in JS, hence `some []` is returned as `[]`
without falling back). -/
def loadHanziForPinyin (shardOf : String → Shard) (key : String) : List String :=
  let base := stripToneDigit key
  if base = "" then []
  else
    let shard := shardOf base
    match shardLookup shard key with
    | some v => v
    | none => (shardLookup shard base).getD []

/-! ## Text normalizers (`api/transcribe.js` lines 284-296, `api/num-normalize.js` lines 86-92) -/

/-- Embeds `stripTrailingPunctIfSingle` (`api/transcribe.js`, lines 284-289):
trim; keep multi-token strings as trimmed; otherwise strip one trailing
punctuation run. -/
def stripTrailingPunctIfSingle (s : String) : String :=
  if s = "" then s
  else
    let t := jsTrimStr s
    if t.data.contains ' ' then t
    else String.mk (dropTrailingWhile isPunctTrail t.data)

/-- Embeds `normalizeCandidates` (`api/transcribe.js`, lines 292-296):
map the single-token punctuation strip over the list and drop empties. -/
def normalizeCandidates (arr : List String) : List String :=
  (arr.map stripTrailingPunctIfSingle).filter fun s => s ≠ ""

/-- Embeds `stripEnds` (`api/num-normalize.js`, lines 86-92): trim, strip the
leading and trailing quote runs, strip one trailing sentence-punctuation run,
trim again. -/
def stripEnds (s : String) : String :=
  String.mk (jsTrim (dropTrailingWhile isPunctEnd
    (dropTrailingWhile isQuoteChar ((jsTrim s.data).dropWhile isQuoteChar))))

/-- Modelled from the claim's wording for the text normalizer: trims
surrounding whitespace, strips one layer (one run at each end) of
quote-like characters, and strips at most one trailing run of
sentence-terminating punctuation; compared against `stripEnds` below. -/
def claimTextNormalize (s : String) : String :=
  let trimmed := jsTrim s.data
  let unquoted := dropTrailingWhile isQuoteChar (trimmed.dropWhile isQuoteChar)
  let unpunct := dropTrailingWhile isPunctEnd unquoted
  String.mk (jsTrim unpunct)

example : stripEnds " '144.' " = "144" := by decide
example : stripTrailingPunctIfSingle "好。" = "好" := by decide
example : stripTrailingPunctIfSingle " a b. " = "a b." := by decide

/-! ## Candidate pipeline (`api/transcribe.js`, lines 102-108, 392-404) -/

/-- Embeds `looksLikeLatinOnly` (lines 392-396): has a Latin letter and no
CJK/Japanese/Korean script character. -/
def looksLikeLatinOnly (s : String) : Bool :=
  s.data.any isLatinLetter && !(s.data.any isCJKScript)

/-- Embeds `strictLanguageFilter` (lines 397-404): for `zh`/`ja`/`ko` drop
Latin-only candidates; the source's `filtered.length ? filtered : []`
returns the empty list when the filter removes everything. -/
def strictLanguageFilter (cands : List String) (bcp47 : String) : List String :=
  if primarySubtag bcp47 ∈ (["zh", "ja", "ko"] : List String) then
    let filtered := cands.filter fun t => !looksLikeLatinOnly t
    if filtered.isEmpty then [] else filtered
  else cands

/-- Embeds the candidate-processing step of the Azure branch of `handler`
(lines 102-108): trim, drop empties, cap to five, strict language filter,
candidate normalization. -/
def processCandidates (raw : List String) (language : String) : List String :=
  normalizeCandidates
    (strictLanguageFilter (((raw.map jsTrimStr).filter fun s => s ≠ "").take 5) language)

/-! ## English homophones (`api/transcribe.js`, lines 221-281) -/

/-- Embeds `parseInt(s, 10)` on an all-digit string. -/
def parseDecimal (s : String) : Nat :=
  s.data.foldl (fun n c => n * 10 + (c.toNat - 48)) 0

/-- The word/digit/query forms computed by `buildEnHomophones`
(lines 230-248). -/
structure EnForms where
  wordForm : Option String
  digitForm : Option String
  queryWord : String
deriving DecidableEq

/-- Embeds lines 230-248 of `buildEnHomophones`: an all-digit top candidate is
parsed and rendered back (`digitForm = String(parseInt(top, 10))`), its word
form is `intToEnglishWord`; otherwise a token that parses via
`englishWordToInt` gets the normalized word form and the digit rendering of
its value; anything else keeps the raw candidate as query word with no forms. -/
def enForms (top : String) : EnForms :=
  if top ≠ "" ∧ top.data.all isDigitChar then
    let n := parseDecimal top
    let wf := intToEnglishWord n
    { wordForm := wf, digitForm := some (Nat.repr n), queryWord := wf.getD top }
  else
    match englishWordToInt top with
    | some n =>
      { wordForm := some (normalizeNumberWord top)
        digitForm := some (Nat.repr n)
        queryWord := normalizeNumberWord top }
    | none => { wordForm := none, digitForm := none, queryWord := top }

/-- Embeds the Datamuse call guard and response cleanup (lines 250-261):
the service is queried only when the query word matches `/^[a-z-]+$/i`;
`datamuse` is the word list of the response; entries are trimmed and empties
dropped. -/
def enDatamuse (datamuse : List String) (qw : String) : List String :=
  if qw.data ≠ [] ∧ qw.data.all fun c => isLatinLetter c || c = '-' then
    (datamuse.map jsTrimStr).filter fun s => s ≠ ""
  else []

/-- Embeds the set assembly of lines 263-274: union the Datamuse words with
the truthy word/digit forms in a JS `Set`, delete the lowercased candidate,
then keep only non-empty entries differing case-insensitively from the
candidate (the source's `set.delete(top.toLowerCase() === top ? top :
top.toLowerCase())` always deletes the lowercased candidate).
`setAddTruthy` embeds the statements `if (wordForm) set.add(wordForm)` and
`if (digitForm) set.add(digitForm)`: a JS string is truthy iff non-empty. -/
def setAddTruthy (l : List String) (o : Option String) : List String :=
  match o with
  | some w => if w = "" then l else setAdd l w
  | none => l

def enAssemble (dm : List String) (wf df : Option String) (top : String) : List String :=
  let s2 := setAddTruthy (setAddTruthy (dm.foldl setAdd []) wf) df
  let s3 := s2.erase (jsToLowerStr top)
  (s3.filter fun w => w ≠ "").filter fun w => jsToLowerStr w ≠ jsToLowerStr top

/-- Result record of `buildEnHomophones`. -/
structure EnHomophones where
  input : String
  homophones : List String
deriving DecidableEq

/-- Embeds `buildEnHomophones` (`api/transcribe.js`, lines 221-281). The
Datamuse response is the `datamuse` parameter (consulted only under the
query-word guard); with the network abstracted the body is pure and the
surrounding `try`/`catch` has nothing to catch. Empty assembled sets yield
`null`; otherwise the list is capped to 30 entries.  `enResult` is the final
guard-and-cap step of lines 276-277, `buildEnHomophones` the enclosing guards
of lines 223-227. -/
def enResult (datamuse : List String) (top : String) : Option EnHomophones :=
  if enAssemble (enDatamuse datamuse (enForms top).queryWord)
      (enForms top).wordForm (enForms top).digitForm top = [] then none
  else
    some { input := top
           homophones := (enAssemble (enDatamuse datamuse (enForms top).queryWord)
                           (enForms top).wordForm (enForms top).digitForm top).take 30 }

def buildEnHomophones (datamuse : List String) (candidates : List String)
    (bcp47 : String) : Option EnHomophones :=
  if primarySubtag bcp47 ≠ "en" then none
  else if jsTrimStr (candidates.headD "") = "" ∨
      (jsTrimStr (candidates.headD "")).data.any jsIsSpace then none
  else enResult datamuse (jsTrimStr (candidates.headD ""))

example : buildEnHomophones ["to", "too"] ["two"] "en-US" =
    some { input := "two", homophones := ["to", "too", "2"] } := by decide
example : buildEnHomophones [] ["007"] "en" =
    some { input := "007", homophones := ["seven", "7"] } := by decide
example : buildEnHomophones ["deux"] ["two"] "fr" = none := by decide

/-! ## Claim-side model of the token-loop characterization of `wordToInt` -/

/-- Modelled from the claim's enumerated cases for `wordToInt`: ones/teens and
tens tokens add into the running subtotal; `hundred` multiplies a nonzero
subtotal by 100 and fails on a zero subtotal; `thousand` flushes
`current * 1000` into the total with the same zero-guard; `and` is skipped;
any other token fails the parse; the final value is `total + current`. -/
def claimLoop : List String → Nat → Nat → Option Nat
  | [], total, current => some (total + current)
  | p :: ps, total, current =>
    match SMALLS p with
    | some v => claimLoop ps total (current + v)
    | none =>
      match TENS p with
      | some v => claimLoop ps total (current + v)
      | none =>
        if p = "hundred" then
          if current = 0 then none else claimLoop ps total (current * 100)
        else if p = "thousand" then
          if current = 0 then none else claimLoop ps (total + current * 1000) 0
        else if p = "and" then claimLoop ps total current
        else none

/-- Modelled from the claim's wording for `wordToInt` as a whole: tokenize the
normalized input on spaces, run the enumerated token cases, fail above 9999,
otherwise return `total + current`. -/
def claimWordToInt (s : String) : Option Nat :=
  match claimLoop (splitStr ' ' (normalizeNumberWord s)) 0 0 with
  | none => none
  | some v => if 9999 < v then none else some v

theorem claimLoop_eq_wordLoop (ps : List String) :
    ∀ total current, claimLoop ps total current = wordLoop ps total current := by
  induction ps with
  | nil => intro total current; rfl
  | cons p ps ih =>
    intro total current
    simp only [claimLoop, wordLoop]
    cases SMALLS p with
    | some v => exact ih ..
    | none =>
      cases TENS p with
      | some v => exact ih ..
      | none =>
        by_cases h1 : p = "hundred"
        · by_cases h2 : current = 0 <;> simp [h1, h2, ih]
        · by_cases h3 : p = "thousand"
          · by_cases h2 : current = 0 <;> simp [h1, h3, h2, ih]
          · by_cases h4 : p = "and" <;> simp [h1, h3, h4, ih]

/-! ## Generic JS `Set` lemmas -/

theorem mem_setAdd {α : Type} [DecidableEq α] {l : List α} {x a : α} :
    a ∈ setAdd l x ↔ a ∈ l ∨ a = x := by
  unfold setAdd
  by_cases h : x ∈ l
  · simp only [if_pos h]
    constructor
    · exact Or.inl
    · rintro (ha | rfl) <;> assumption
  · simp [if_neg h, List.mem_append]

theorem nodup_setAdd {α : Type} [DecidableEq α] {l : List α} {x : α} (h : l.Nodup) :
    (setAdd l x).Nodup := by
  unfold setAdd
  by_cases hx : x ∈ l
  · simpa [if_pos hx]
  · simp only [if_neg hx, List.nodup_append]
    exact ⟨h, by simpa using fun ha => (hx ha).elim⟩

theorem mem_foldl_setAdd {α : Type} [DecidableEq α] (xs : List α) :
    ∀ (l : List α) (a : α), a ∈ xs.foldl setAdd l ↔ a ∈ l ∨ a ∈ xs := by
  induction xs with
  | nil => simp
  | cons x xs ih =>
    intro l a
    simp only [List.foldl_cons, ih, mem_setAdd, List.mem_cons]
    tauto

theorem nodup_foldl_setAdd {α : Type} [DecidableEq α] (xs : List α) :
    ∀ l : List α, l.Nodup → (xs.foldl setAdd l).Nodup := by
  induction xs with
  | nil => exact fun l hl => hl
  | cons x xs ih => intro l hl; exact ih _ (nodup_setAdd hl)

theorem mem_jsSetFrom {α : Type} [DecidableEq α] {xs : List α} {a : α} :
    a ∈ jsSetFrom xs ↔ a ∈ xs := by
  simp [jsSetFrom, mem_foldl_setAdd]

theorem nodup_jsSetFrom {α : Type} [DecidableEq α] (xs : List α) :
    (jsSetFrom xs).Nodup := nodup_foldl_setAdd xs [] List.nodup_nil

theorem mem_unionFold (entry : String → List String) (bases : List String) :
    ∀ (acc : List String) (a : String),
      a ∈ bases.foldl (fun acc b => (entry b).foldl setAdd acc) acc ↔
        a ∈ acc ∨ ∃ b ∈ bases, a ∈ entry b := by
  induction bases with
  | nil => simp
  | cons b bs ih =>
    intro acc a
    simp only [List.foldl_cons, ih, mem_foldl_setAdd, List.mem_cons]
    constructor
    · rintro ((h | h) | ⟨b', hb', h⟩)
      · exact Or.inl h
      · exact Or.inr ⟨b, Or.inl rfl, h⟩
      · exact Or.inr ⟨b', Or.inr hb', h⟩
    · rintro (h | ⟨b', (rfl | hb'), h⟩)
      · exact Or.inl (Or.inl h)
      · exact Or.inl (Or.inr h)
      · exact Or.inr ⟨b', hb', h⟩

theorem nodup_unionFold (entry : String → List String) (bases : List String) :
    ∀ acc : List String, acc.Nodup →
      (bases.foldl (fun acc b => (entry b).foldl setAdd acc) acc).Nodup := by
  induction bases with
  | nil => exact fun acc hacc => hacc
  | cons b bs ih => intro acc hacc; exact ih _ (nodup_foldl_setAdd _ _ hacc)

/-! ## Trim and lowercase lemmas -/

theorem head_dropWhile_false (p : Char → Bool) (l : List Char) (a : Char)
    (h : (l.dropWhile p).head? = some a) : p a = false := by
  induction l with
  | nil => simp at h
  | cons x xs ih =>
    by_cases hx : p x
    · rw [List.dropWhile_cons_of_pos hx] at h; exact ih h
    · rw [List.dropWhile_cons_of_neg hx] at h
      simp only [List.head?_cons, Option.some.injEq] at h
      subst h
      simpa using hx

theorem dropWhile_of_head_false (p : Char → Bool) (l : List Char) (a : Char)
    (hh : l.head? = some a) (ha : p a = false) : l.dropWhile p = l := by
  cases l with
  | nil => rfl
  | cons x xs =>
    simp only [List.head?_cons, Option.some.injEq] at hh
    subst hh
    simp [List.dropWhile_cons, ha]

theorem dropWhile_idem (p : Char → Bool) (l : List Char) :
    (l.dropWhile p).dropWhile p = l.dropWhile p := by
  cases h : l.dropWhile p with
  | nil => rfl
  | cons a t =>
    have ha : p a = false := head_dropWhile_false p l a (by simp [h])
    simp [List.dropWhile_cons, ha]

theorem dropTrailingWhile_prefix (p : Char → Bool) (l : List Char) :
    dropTrailingWhile p l <+: l := by
  rw [← List.reverse_suffix]
  unfold dropTrailingWhile
  rw [List.reverse_reverse]
  exact List.dropWhile_suffix p

theorem jsTrim_idem (cs : List Char) : jsTrim (jsTrim cs) = jsTrim cs := by
  unfold jsTrim
  set A := cs.dropWhile jsIsSpace with hA
  set X := dropTrailingWhile jsIsSpace A with hX
  have hXA : X <+: A := dropTrailingWhile_prefix jsIsSpace A
  have hdropX : X.dropWhile jsIsSpace = X := by
    cases hXe : X with
    | nil => rfl
    | cons a t =>
      have hXhead : X.head? = some a := by rw [hXe]; rfl
      have hAhead : A.head? = some a := by
        obtain ⟨u, hu⟩ := hXA
        rw [← hu, hXe]
        rfl
      have ha : jsIsSpace a = false := by
        apply head_dropWhile_false jsIsSpace cs a
        rw [← hA]; exact hAhead
      rw [← hXe]
      exact dropWhile_of_head_false jsIsSpace X a hXhead ha
  rw [hdropX]
  have hrevX : X.reverse = A.reverse.dropWhile jsIsSpace := by
    rw [hX]; unfold dropTrailingWhile; rw [List.reverse_reverse]
  unfold dropTrailingWhile
  rw [hrevX, dropWhile_idem, ← hrevX, List.reverse_reverse]

theorem toNat_ofNat_valid (n : Nat) (h : n < 0xD800) : (Char.ofNat n).toNat = n := by
  have hv : n.isValidChar := Or.inl h
  simp [Char.ofNat, hv, Char.ofNatAux, Char.toNat, UInt32.toNat, UInt32.ofNat']

theorem jsToLower_idem (c : Char) : jsToLower (jsToLower c) = jsToLower c := by
  unfold jsToLower
  by_cases h : 65 ≤ c.toNat ∧ c.toNat ≤ 90
  · rw [if_pos h]
    have ht : (Char.ofNat (c.toNat + 32)).toNat = c.toNat + 32 :=
      toNat_ofNat_valid _ (by omega)
    rw [if_neg (by omega)]
  · rw [if_neg h, if_neg h]

theorem jsToLowerStr_idem (s : String) : jsToLowerStr (jsToLowerStr s) = jsToLowerStr s := by
  unfold jsToLowerStr
  simp only [List.map_map]
  congr 1
  exact List.map_congr_left fun a _ => by simp [Function.comp, jsToLower_idem]

/-! ## Claim C1 -/

/-- Claim C1: the spec asserts the round-trip `wordToInt (intToWord n) = n`
for every `0 ≤ n ≤ 9999`.  It fails: `intToEnglishWord 121` produces
`"one hundred twenty-one"`, whose interior hyphenated token is not
recognized by `englishWordToInt`, which therefore returns `NaN` (`none`)
instead of 121.  The generator and the parser are siblings in the same
file, so the parser rejecting the generator's own output contradicts the
code's evident intent (its comment documents both hyphenated pairs and
scale words as parseable). -/
theorem roundTrip_fails_at_121 :
    intToEnglishWord 121 = some "one hundred twenty-one" ∧
    englishWordToInt "one hundred twenty-one" = none ∧
    ((List.range 121).all fun n =>
      (intToEnglishWord n).bind englishWordToInt == some n) = true := by
  refine ⟨by decide, by decide, by decide⟩

/-! ## Claim C6 -/

/-- Claim C6 counterexample: the claim's enumeration of the `NaN` cases says
any token outside the two tables and the three keywords fails the parse; yet
`"twenty-five"` tokenizes (on spaces) to the single unrecognized token
`"twenty-five"` and still parses to 25, through the hyphenated-pair shortcut
that runs before the token loop. -/
theorem englishWordToInt_shortcut_counterexample :
    englishWordToInt "twenty-five" = some 25 ∧ claimWordToInt "twenty-five" = none := by
  decide

/-- Claim C6 (amended): whenever the hyphenated-pair shortcut does not fire
(the normalized input does not split at hyphens into a tens word followed by
a ones/teens word), `englishWordToInt` behaves exactly as the claim's
enumeration describes: `NaN` on a zero-subtotal `hundred`/`thousand`, on an
unrecognized token, or on a final value above 9999, and `total + current`
otherwise. -/
theorem englishWordToInt_cases (s : String)
    (h : hyphenPair (normalizeNumberWord s) = none) :
    englishWordToInt s = claimWordToInt s := by
  unfold englishWordToInt claimWordToInt
  by_cases hs : s = ""
  · subst hs; decide
  · rw [if_neg hs]
    cases hc : (normalizeNumberWord s).data.contains '-' <;>
      simp [hc, h, claimLoop_eq_wordLoop, rangedTotal]

/-- Witness for the amended Claim C6 at the concrete input
`"three hundred four"`. -/
theorem englishWordToInt_cases_witness :
    hyphenPair (normalizeNumberWord "three hundred four") = none ∧
    englishWordToInt "three hundred four" = claimWordToInt "three hundred four" :=
  ⟨by decide, englishWordToInt_cases "three hundred four" (by decide)⟩

/-! ## Claim C7 -/

/-- Claim C7: the text normalizer (`stripEnds` of `api/num-normalize.js`, the
function that performs all three listed operations) trims surrounding
whitespace, strips one layer of leading/trailing quote-like characters, and
strips at most one trailing sentence-terminating punctuation run, matching the
claim-side model `claimTextNormalize` built from that wording; it is a total
function (never raises), maps the empty string to the empty string, and its
output carries no surrounding whitespace.  The companion single-token strip
`stripTrailingPunctIfSingle` of `api/transcribe.js` also maps empty to
empty. -/
theorem textNormalizer_spec :
    (∀ s, stripEnds s = claimTextNormalize s) ∧
    stripEnds "" = "" ∧
    (∀ s, jsTrimStr (stripEnds s) = stripEnds s) ∧
    stripTrailingPunctIfSingle "" = "" := by
  refine ⟨fun s => rfl, rfl, fun s => ?_, rfl⟩
  unfold stripEnds jsTrimStr
  simp [jsTrim_idem]

/-! ## Dispatch lemmas for the Chinese resolver -/

theorem data_mk (l : List Char) : (String.mk l).data = l := rfl

theorem isHan_not_space {c : Char} (h : isHan c = true) : jsIsSpace c = false := by
  unfold isHan at h
  unfold jsIsSpace
  simp only [decide_eq_true_eq] at h
  simp only [decide_eq_false_iff_not]
  omega

theorem jsTrim_single {c : Char} (h : jsIsSpace c = false) : jsTrim [c] = [c] := by
  unfold jsTrim dropTrailingWhile
  simp [List.dropWhile, h]

theorem mk_ne_empty (c : Char) (cs : List Char) : String.mk (c :: cs) ≠ "" := by
  intro hEq
  simpa using congrArg String.data hEq

theorem buildZh_singleChar_dispatch (hm : Char → List Reading) (shardOf : String → Shard)
    (ch : Char) (hHan : isHan ch = true) :
    buildZhHomophones hm shardOf [String.mk [ch]] "zh" =
      some (zhSingleCharResult hm shardOf ch) := by
  have hsp := isHan_not_space hHan
  have htrim : jsTrimStr (String.mk [ch]) = String.mk [ch] := by
    unfold jsTrimStr
    rw [data_mk, jsTrim_single hsp]
  have hne : (String.mk [ch] : String) ≠ "" := mk_ne_empty ch []
  have hfilter : [ch].filter isHan = [ch] := by simp [List.filter, hHan]
  unfold buildZhHomophones
  rw [if_neg (show ¬ primarySubtag "zh" ≠ "zh" by decide)]
  simp only [List.headD_cons, htrim, data_mk, hfilter]
  rw [if_neg hne, if_pos hne]
  simp only [data_mk, hfilter, List.length_cons, List.length_nil, if_true]
  simp [List.find?, hHan]

theorem buildZh_singlePinyin_dispatch (hm : Char → List Reading) (shardOf : String → Shard)
    (t key : String) (h0 : jsTrimStr t = t) (h1 : t ≠ "")
    (h2 : t.data.filter isHan = []) (h3 : detectSinglePinyin t = some key) :
    buildZhHomophones hm shardOf [t] "zh" =
      some (zhSinglePinyinResult shardOf t key) := by
  unfold buildZhHomophones
  rw [if_neg (show ¬ primarySubtag "zh" ≠ "zh" by decide)]
  simp only [List.headD_cons, h0, h2]
  rw [if_neg h1]
  rw [if_neg (show ¬ (String.mk [] : String) ≠ "" by simp)]
  simp only [h2, List.length_nil]
  rw [if_neg (by omega)]
  rw [h3]

/-! ## Claim C2 -/

/-- Claim C2 counterexample: for the all-Latin candidate list `["hello"]` and
the logographic target `"zh-CN"`, the claim requires the pipeline to fall
back to the unfiltered first candidate `"hello"`; the source's
`filtered.length ? filtered : []` instead yields the empty list, which stays
empty through candidate normalization. -/
theorem strictLanguageFilter_counterexample :
    strictLanguageFilter ["hello"] "zh-CN" = [] ∧
    processCandidates ["hello"] "zh-CN" = [] ∧
    (([] : List String) ≠ ["hello"]) := by decide

/-- Claim C2 (amended): for a logographic target language, when every
candidate is Latin-only the filter empties the list and the pipeline's
candidate list is empty (the handler then falls through to its
no-speech-recognized response); the unfiltered first candidate is not
restored. -/
theorem strictLanguageFilter_empty (cands : List String) (lang : String)
    (hlang : primarySubtag lang ∈ (["zh", "ja", "ko"] : List String))
    (hall : ∀ t ∈ cands, looksLikeLatinOnly t = true) :
    strictLanguageFilter cands lang = [] ∧
    normalizeCandidates (strictLanguageFilter cands lang) = [] := by
  have hf : cands.filter (fun t => !looksLikeLatinOnly t) = [] := by
    rw [List.filter_eq_nil_iff]
    intro a ha
    simp [hall a ha]
  unfold strictLanguageFilter
  rw [if_pos hlang, hf]
  exact ⟨rfl, rfl⟩

/-- Witness for the amended Claim C2 at the concrete candidate list
`["abc", "xyz"]` and language `"ja"`. -/
theorem strictLanguageFilter_empty_witness :
    strictLanguageFilter ["abc", "xyz"] "ja" = [] ∧
    normalizeCandidates (strictLanguageFilter ["abc", "xyz"] "ja") = [] :=
  strictLanguageFilter_empty ["abc", "xyz"] "ja" (by decide) (by decide)

/-! ## Claim C3 -/

/-- A concrete shard family for the Claim C3 counterexample: the `hao` shard
carries distinct entries for the tone-qualified key `hao3` and the bare base
key `hao`. -/
def shardHaoC3 (b : String) : Shard :=
  if b = "hao" then [("hao3", ["好"]), ("hao", ["好", "号"])] else []

/-- Claim C3 counterexample: resolving the candidate `"hao3"` against a shard
whose `hao3` entry is `["好"]` and whose `hao` entry is `["好", "号"]`, the
server's singlePinyin path emits the bare-base entry `["好", "号"]`, not the
present tone-qualified entry `["好"]` the claim requires. -/
theorem zh_singlePinyin_counterexample :
    (buildZhHomophones (fun _ => []) shardHaoC3 ["hao3"] "zh").map ZhAugment.homophones =
      some ["好", "号"] ∧
    shardLookup (shardHaoC3 "hao") "hao3" = some ["好"] ∧
    (["好", "号"] : List String) ≠ ["好"] := by decide

/-- Claim C3 (amended): in the server's singlePinyin resolution path the
homophone list is always the shard entry for the bare base key (empty when
absent) regardless of any trailing tone digit; the tone-qualified-key-first
fallback the claim describes is implemented only by the client-side loader
`loadHanziForPinyin`, which returns the shard entry for the full key when
present and only otherwise the bare-base entry.  Both lookups are total
(they never throw). -/
theorem zh_singlePinyin_base_lookup (hm : Char → List Reading) (shardOf : String → Shard)
    (t key : String) (h0 : jsTrimStr t = t) (h1 : t ≠ "")
    (h2 : t.data.filter isHan = []) (h3 : detectSinglePinyin t = some key) :
    buildZhHomophones hm shardOf [t] "zh" = some (zhSinglePinyinResult shardOf t key) ∧
    (zhSinglePinyinResult shardOf t key).homophones =
      (shardLookup (shardOf (stripToneDigit key)) (stripToneDigit key)).getD [] ∧
    (∀ (shardOf' : String → Shard) (k : String) (v : List String),
      stripToneDigit k ≠ "" →
      shardLookup (shardOf' (stripToneDigit k)) k = some v →
      loadHanziForPinyin shardOf' k = v) ∧
    (∀ (shardOf' : String → Shard) (k : String),
      stripToneDigit k ≠ "" →
      shardLookup (shardOf' (stripToneDigit k)) k = none →
      loadHanziForPinyin shardOf' k =
        (shardLookup (shardOf' (stripToneDigit k)) (stripToneDigit k)).getD []) := by
  refine ⟨buildZh_singlePinyin_dispatch hm shardOf t key h0 h1 h2 h3, rfl, ?_, ?_⟩
  · intro shardOf' k v hk hv
    unfold loadHanziForPinyin
    rw [if_neg (by simpa using hk)]
    simp [hv]
  · intro shardOf' k hk hv
    unfold loadHanziForPinyin
    rw [if_neg (by simpa using hk)]
    simp [hv]

/-- Witness for the amended Claim C3 at the concrete candidate `"hao3"` and
the concrete `hao` shard. -/
theorem zh_singlePinyin_base_lookup_witness :
    buildZhHomophones (fun _ => []) shardHaoC3 ["hao3"] "zh" =
      some (zhSinglePinyinResult shardHaoC3 "hao3" "hao3") ∧
    (zhSinglePinyinResult shardHaoC3 "hao3" "hao3").homophones =
      (shardLookup (shardHaoC3 (stripToneDigit "hao3")) (stripToneDigit "hao3")).getD [] := by
  have h := zh_singlePinyin_base_lookup (fun _ => []) shardHaoC3 "hao3" "hao3"
    (by decide) (by decide) (by decide) (by decide)
  exact ⟨h.1, h.2.1⟩

/-! ## Claim C4 -/

theorem jsSetFrom_ne_nil {α : Type} [DecidableEq α] {xs : List α} (h : xs ≠ []) :
    jsSetFrom xs ≠ [] := by
  cases xs with
  | nil => exact absurd rfl h
  | cons x t =>
    have : x ∈ jsSetFrom (x :: t) := mem_jsSetFrom.mpr (List.mem_cons_self x t)
    exact List.ne_nil_of_mem this

theorem zhSingleCharResult_homophones_mem (hm : Char → List Reading)
    (shardOf : String → Shard) (ch : Char) (c : String) :
    c ∈ (zhSingleCharResult hm shardOf ch).homophones ↔
      ∃ b ∈ (zhSingleCharResult hm shardOf ch).bases,
        c ∈ (shardLookup (shardOf b) b).getD [] := by
  unfold zhSingleCharResult
  dsimp only
  exact (mem_unionFold (fun b => (shardLookup (shardOf b) b).getD []) _ [] c).trans
    (by simp)

/-- Claim C4: in the singleChar path the emitted homophone set is exactly the
union of the bare-base entries of all distinct reading bases' shards, with
duplicates removed; the tone label is the distinct (nonzero) tone digits of
all readings joined by `/`; and a logogram with no known readings yields
`bases = []` and an empty homophone set rather than a failure.  (Stated for
every logogram, which covers the claim's two-or-more-bases case.) -/
theorem zh_singleChar_polyphony (hm : Char → List Reading) (shardOf : String → Shard)
    (ch : Char) (hHan : isHan ch = true) (hTone : ∀ r ∈ hm ch, r.tone ≠ 0) :
    buildZhHomophones hm shardOf [String.mk [ch]] "zh" =
      some (zhSingleCharResult hm shardOf ch) ∧
    (∀ c, c ∈ (zhSingleCharResult hm shardOf ch).homophones ↔
      ∃ b ∈ (zhSingleCharResult hm shardOf ch).bases,
        c ∈ (shardLookup (shardOf b) b).getD []) ∧
    (zhSingleCharResult hm shardOf ch).homophones.Nodup ∧
    (zhSingleCharResult hm shardOf ch).bases =
      jsSetFrom (((hm ch).map fun r => jsToLowerStr r.sound).filter fun s => s ≠ "") ∧
    (hm ch ≠ [] → (zhSingleCharResult hm shardOf ch).toneLabel =
      some (String.intercalate "/"
        ((jsSetFrom ((hm ch).map Reading.tone)).map Nat.repr))) ∧
    (hm ch = [] →
      zhSingleCharResult hm shardOf ch =
        { mode := "singleChar", input := String.mk [ch], bases := [],
          homophones := [], toneLabel := none }) := by
  have hfilter : ((hm ch).map Reading.tone).filter (fun t => t ≠ 0) =
      (hm ch).map Reading.tone := by
    rw [List.filter_eq_self]
    intro a ha
    obtain ⟨r, hr, rfl⟩ := List.mem_map.mp ha
    simpa using hTone r hr
  refine ⟨buildZh_singleChar_dispatch hm shardOf ch hHan, ?_, ?_, rfl, ?_, ?_⟩
  · exact zhSingleCharResult_homophones_mem hm shardOf ch
  · exact nodup_unionFold _ _ [] List.nodup_nil
  · intro hne
    have hmapne : (hm ch).map Reading.tone ≠ [] := by
      intro hmap
      exact hne (List.map_eq_nil_iff.mp hmap)
    have hlab : (zhSingleCharResult hm shardOf ch).toneLabel =
        (if jsSetFrom (((hm ch).map Reading.tone).filter fun t => t ≠ 0) = [] then none
         else some (String.intercalate "/"
           ((jsSetFrom (((hm ch).map Reading.tone).filter fun t => t ≠ 0)).map Nat.repr))) := rfl
    rw [hlab, hfilter, if_neg (jsSetFrom_ne_nil hmapne)]
  · intro hempty
    simp [zhSingleCharResult, hempty, jsSetFrom]

/-- The reading table for the Claim C4 witness: the polyphonic logogram `行`
with readings `hang2` and `xing2`. -/
def hmXingC4 (c : Char) : List Reading :=
  if c = '行' then [⟨"hang", 2, "háng"⟩, ⟨"xing", 2, "xíng"⟩] else []

/-- The shard family for the Claim C4 witness. -/
def shardXingC4 (b : String) : Shard :=
  if b = "hang" then [("hang", ["行", "航"])]
  else if b = "xing" then [("xing", ["行", "形"])]
  else []

/-- Witness for Claim C4 at the concrete polyphonic logogram `行`: the
emitted set contains homophones of both pronunciations, and both bases are
reported. -/
theorem zh_singleChar_polyphony_witness :
    buildZhHomophones hmXingC4 shardXingC4 [String.mk ['行']] "zh" =
      some (zhSingleCharResult hmXingC4 shardXingC4 '行') ∧
    "航" ∈ (zhSingleCharResult hmXingC4 shardXingC4 '行').homophones ∧
    "形" ∈ (zhSingleCharResult hmXingC4 shardXingC4 '行').homophones ∧
    (zhSingleCharResult hmXingC4 shardXingC4 '行').bases = ["hang", "xing"] := by
  have h := zh_singleChar_polyphony hmXingC4 shardXingC4 '行' (by decide) (by decide)
  refine ⟨h.1, ?_, ?_, by decide⟩
  · exact (h.2.1 "航").mpr ⟨"hang", by decide, by decide⟩
  · exact (h.2.1 "形").mpr ⟨"xing", by decide, by decide⟩

/-! ## Claim C5 -/

/-- Claim C5 counterexample: with an empty cache, a transport error on the
shard fetch makes `loadPinyinShard` throw (the rejected `await fetch`),
propagating the error instead of storing and returning an empty shard as the
claim requires. -/
theorem loadPinyinShard_netError_propagates :
    loadPinyinShard [] "hao" FetchOutcome.netError = Except.error () ∧
    loadPinyinShard [] "hao" FetchOutcome.netError ≠
      Except.ok ⟨[], [("hao", ([] : Shard))], 1⟩ := by
  refine ⟨rfl, ?_⟩
  rw [show loadPinyinShard [] "hao" FetchOutcome.netError = Except.error () from rfl]
  exact fun h => Except.noConfusion h

/-- Claim C5 (amended): a cache hit returns the cached shard with no fetch; a
cache miss with a not-found (non-ok) response stores and returns the empty
shard, and a subsequent load of the same base is served from the cache
without fetching; but a transport error propagates as a thrown error (caught
only by the resolver's surrounding `try`/`catch`) and caches nothing. -/
theorem loadPinyinShard_spec (cache : ShardCache) (base : String) (f : FetchOutcome) :
    (∀ v, cache.lookup base = some v → loadPinyinShard cache base f = .ok ⟨v, cache, 0⟩) ∧
    (cache.lookup base = none → ∀ sh,
      loadPinyinShard cache base (.ok sh) = .ok ⟨sh, (base, sh) :: cache, 1⟩) ∧
    (cache.lookup base = none →
      loadPinyinShard cache base .notOk = .ok ⟨[], (base, ([] : Shard)) :: cache, 1⟩) ∧
    (cache.lookup base = none → loadPinyinShard cache base .netError = .error ()) ∧
    (cache.lookup base = none →
      loadPinyinShard ((base, ([] : Shard)) :: cache) base f =
        .ok ⟨[], (base, ([] : Shard)) :: cache, 0⟩) := by
  refine ⟨?_, ?_, ?_, ?_, ?_⟩
  · intro v hv; unfold loadPinyinShard; rw [hv]
  · intro hn sh; unfold loadPinyinShard; rw [hn]
  · intro hn; unfold loadPinyinShard; rw [hn]
  · intro hn; unfold loadPinyinShard; rw [hn]
  · intro hn
    unfold loadPinyinShard
    simp [List.lookup]

/-- Witness for the amended Claim C5: a concrete not-found load stores the
empty shard, and the immediate reload is served from the cache without a
fetch. -/
theorem loadPinyinShard_spec_witness :
    loadPinyinShard [] "hao" FetchOutcome.notOk =
      Except.ok ⟨[], [("hao", ([] : Shard))], 1⟩ ∧
    loadPinyinShard [("hao", ([] : Shard))] "hao" FetchOutcome.notOk =
      Except.ok ⟨[], [("hao", ([] : Shard))], 0⟩ := by
  have h1 := (loadPinyinShard_spec [] "hao" FetchOutcome.notOk).2.2.1 (by decide)
  have h2 := (loadPinyinShard_spec [] "hao" FetchOutcome.notOk).2.2.2.2 (by decide)
  exact ⟨h1, h2⟩

/-! ## Claim C8 -/

theorem mem_setAddTruthy (l : List String) (o : Option String) (x : String) :
    x ∈ setAddTruthy l o ↔ x ∈ l ∨ (o = some x ∧ x ≠ "") := by
  cases o with
  | none => simp [setAddTruthy]
  | some u =>
    by_cases hu : u = ""
    · subst hu
      simp only [setAddTruthy, if_pos rfl, Option.some.injEq]
      constructor
      · exact Or.inl
      · rintro (h | ⟨rfl, hne⟩)
        · exact h
        · exact absurd rfl hne
    · simp only [setAddTruthy, if_neg hu, mem_setAdd, Option.some.injEq]
      constructor
      · rintro (h | rfl)
        · exact Or.inl h
        · exact Or.inr ⟨rfl, hu⟩
      · rintro (h | ⟨rfl, _⟩)
        · exact Or.inl h
        · exact Or.inr rfl

theorem nodup_setAddTruthy (l : List String) (o : Option String) (h : l.Nodup) :
    (setAddTruthy l o).Nodup := by
  cases o with
  | none => exact h
  | some u =>
    show (if u = "" then l else setAdd l u).Nodup
    by_cases hu : u = ""
    · rw [if_pos hu]
      exact h
    · rw [if_neg hu]
      exact nodup_setAdd h

theorem mem_enAssemble (dm : List String) (wf df : Option String) (top w : String) :
    w ∈ enAssemble dm wf df top ↔
      ((w ∈ dm ∨ wf = some w ∨ df = some w) ∧ w ≠ "" ∧
        jsToLowerStr w ≠ jsToLowerStr top) := by
  unfold enAssemble
  have hmem0 : ∀ x, x ∈ dm.foldl setAdd ([] : List String) ↔ x ∈ dm := by
    intro x
    rw [mem_foldl_setAdd]
    simp
  have hnd2 : (setAddTruthy (setAddTruthy (dm.foldl setAdd []) wf) df).Nodup :=
    nodup_setAddTruthy _ _ (nodup_setAddTruthy _ _ (nodup_foldl_setAdd _ _ List.nodup_nil))
  have hkey : w = jsToLowerStr top → jsToLowerStr w = jsToLowerStr top := by
    intro h
    rw [h, jsToLowerStr_idem]
  simp only [List.mem_filter, List.Nodup.mem_erase_iff hnd2, mem_setAddTruthy, hmem0,
    decide_eq_true_eq]
  tauto

/-- The 30-entry Datamuse response used by the Claim C8 counterexample. -/
def dm30C8 : List String :=
  ["ba", "bb", "bc", "bd", "be", "bf", "bg", "bh", "bi", "bj",
   "bk", "bl", "bm", "bn", "bo", "bp", "bq", "br", "bs", "bt",
   "bu", "bv", "bw", "bx", "by", "bz", "ca", "cb", "cc", "cd"]

/-- Claim C8 counterexample: with a 30-word collaborator response for the
candidate `"two"`, the assembled union also contains the digit form `"2"`,
but the emitted list is `slice(0, 30)` of the union in insertion order, so
`"2"` (position 31) is dropped: the emitted set is not the full union the
claim describes. -/
theorem buildEnHomophones_truncates :
    buildEnHomophones dm30C8 ["two"] "en" =
      some { input := "two", homophones := dm30C8 } ∧
    (enForms "two").digitForm = some "2" ∧
    "2" ∉ dm30C8 := by decide

/-- Claim C8 (amended): every emitted homophone comes from the collaborator
response or equals the word/digit form, and never matches the original
candidate case-insensitively (that part of the claim is exact); but the
emitted list is the union truncated to its first 30 entries, so completeness
of the union holds only when fewer than 30 entries survive. -/
theorem buildEnHomophones_set (datamuse cands : List String) (lang : String)
    (r : EnHomophones) (top : String) (f : EnForms) (dmu : List String)
    (htop : top = jsTrimStr (cands.headD ""))
    (hf : f = enForms top)
    (hdmu : dmu = enDatamuse datamuse f.queryWord)
    (hr : buildEnHomophones datamuse cands lang = some r) :
    (∀ w ∈ r.homophones,
      (w ∈ dmu ∨ f.wordForm = some w ∨ f.digitForm = some w) ∧
      w ≠ "" ∧ jsToLowerStr w ≠ jsToLowerStr top) ∧
    r.homophones.length ≤ 30 ∧
    (r.homophones.length < 30 → ∀ w,
      (w ∈ dmu ∨ f.wordForm = some w ∨ f.digitForm = some w) → w ≠ "" →
      jsToLowerStr w ≠ jsToLowerStr top → w ∈ r.homophones) := by
  subst hf hdmu htop
  unfold buildEnHomophones at hr
  by_cases h1 : primarySubtag lang ≠ "en"
  · rw [if_pos h1] at hr
    exact absurd hr (by simp)
  · rw [if_neg h1] at hr
    by_cases h2 : jsTrimStr (cands.headD "") = "" ∨
        (jsTrimStr (cands.headD "")).data.any jsIsSpace
    · rw [if_pos h2] at hr
      exact absurd hr (by simp)
    · rw [if_neg h2] at hr
      unfold enResult at hr
      by_cases h3 : enAssemble
          (enDatamuse datamuse (enForms (jsTrimStr (cands.headD ""))).queryWord)
          (enForms (jsTrimStr (cands.headD ""))).wordForm
          (enForms (jsTrimStr (cands.headD ""))).digitForm
          (jsTrimStr (cands.headD "")) = []
      · rw [if_pos h3] at hr
        exact absurd hr (by simp)
      · rw [if_neg h3] at hr
        have hreq := (Option.some.inj hr).symm
        subst hreq
        refine ⟨?_, ?_, ?_⟩
        · intro w hw
          exact (mem_enAssemble _ _ _ _ w).mp (List.mem_of_mem_take hw)
        · exact List.length_take_le 30 _
        · intro hlen w hmem hne hlow
          have hlt : (enAssemble
              (enDatamuse datamuse (enForms (jsTrimStr (cands.headD ""))).queryWord)
              (enForms (jsTrimStr (cands.headD ""))).wordForm
              (enForms (jsTrimStr (cands.headD ""))).digitForm
              (jsTrimStr (cands.headD ""))).length < 30 := by
            simp only [List.length_take] at hlen
            omega
          show w ∈ List.take 30 _
          rw [List.take_of_length_le (Nat.le_of_lt hlt)]
          exact (mem_enAssemble _ _ _ _ w).mpr ⟨hmem, hne, hlow⟩

/-- Witness for the amended Claim C8 at the spec's own example: candidate
`"two"` with collaborator response `["to", "too"]`. -/
theorem buildEnHomophones_set_witness :
    ("to" ∈ enDatamuse ["to", "too"]
        (enForms (jsTrimStr ((["two"] : List String).headD ""))).queryWord ∨
      (enForms (jsTrimStr ((["two"] : List String).headD ""))).wordForm = some "to" ∨
      (enForms (jsTrimStr ((["two"] : List String).headD ""))).digitForm = some "to") ∧
    "to" ≠ "" ∧
    jsToLowerStr "to" ≠ jsToLowerStr (jsTrimStr ((["two"] : List String).headD "")) := by
  have h := buildEnHomophones_set ["to", "too"] ["two"] "en"
    ⟨"two", ["to", "too", "2"]⟩ _ _ _ rfl rfl rfl (by decide)
  exact h.1 "to" (by decide)

/-! ## Claim C9 -/

/-- Claim C9 counterexample: for the all-digit candidate `"007"` the claim
requires `digitForm = "007"` (the candidate itself); the source computes
`String(parseInt(top, 10))`, yielding `"7"`. -/
theorem enForms_leading_zeros :
    (enForms "007").digitForm = some "7" ∧
    ("7" : String) ≠ "007" ∧
    (enForms "007").wordForm = some "seven" ∧
    buildEnHomophones [] ["007"] "en" =
      some { input := "007", homophones := ["seven", "7"] } := by decide

/-- Claim C9 (amended): for an all-digit top candidate, `digitForm` is the
canonical decimal rendering of the parsed value (so it equals the candidate
exactly when the candidate carries no redundant leading zeros), and
`wordForm` is `intToEnglishWord` of that value. -/
theorem enForms_digits (top : String) (h1 : top ≠ "")
    (h2 : top.data.all isDigitChar = true) :
    (enForms top).digitForm = some (Nat.repr (parseDecimal top)) ∧
    (enForms top).wordForm = intToEnglishWord (parseDecimal top) ∧
    (top = Nat.repr (parseDecimal top) → (enForms top).digitForm = some top) := by
  unfold enForms
  rw [if_pos ⟨h1, h2⟩]
  refine ⟨rfl, rfl, fun h => ?_⟩
  show some (Nat.repr (parseDecimal top)) = some top
  rw [← h]

/-- Witness for the amended Claim C9 at the concrete candidate `"42"`. -/
theorem enForms_digits_witness :
    (enForms "42").digitForm = some "42" ∧
    (enForms "42").wordForm = some "forty-two" := by
  have h := enForms_digits "42" (by decide) (by decide)
  refine ⟨h.2.2 (by decide), ?_⟩
  rw [h.2.1]
  decide

/-! ## Claim C10 -/

/-- Claim C10: the English augmentation result is either `null` or carries a
non-empty homophone list: an empty assembled set short-circuits to `null`
before the result object is built. -/
theorem buildEnHomophones_nonempty (datamuse cands : List String) (lang : String) :
    buildEnHomophones datamuse cands lang = none ∨
    ∃ r, buildEnHomophones datamuse cands lang = some r ∧ r.homophones ≠ [] := by
  unfold buildEnHomophones
  by_cases h1 : primarySubtag lang ≠ "en"
  · rw [if_pos h1]
    exact Or.inl rfl
  · rw [if_neg h1]
    by_cases h2 : jsTrimStr (cands.headD "") = "" ∨
        (jsTrimStr (cands.headD "")).data.any jsIsSpace
    · rw [if_pos h2]
      exact Or.inl rfl
    · rw [if_neg h2]
      unfold enResult
      by_cases h3 : enAssemble
          (enDatamuse datamuse (enForms (jsTrimStr (cands.headD ""))).queryWord)
          (enForms (jsTrimStr (cands.headD ""))).wordForm
          (enForms (jsTrimStr (cands.headD ""))).digitForm
          (jsTrimStr (cands.headD "")) = []
      · rw [if_pos h3]
        exact Or.inl rfl
      · rw [if_neg h3]
        refine Or.inr ⟨_, rfl, ?_⟩
        show List.take 30 _ ≠ []
        cases he : enAssemble
            (enDatamuse datamuse (enForms (jsTrimStr (cands.headD ""))).queryWord)
            (enForms (jsTrimStr (cands.headD ""))).wordForm
            (enForms (jsTrimStr (cands.headD ""))).digitForm
            (jsTrimStr (cands.headD "")) with
        | nil => exact absurd he h3
        | cons a t => simp [he]
